import Mathlib

/-!
Verification of the core logic of the PDF grader (`理论打分.py`): the
filename parser, the quick-entry score state machine, the record store's
upsert/save operation, and the gradebook exporter's sorting, highlighting
and column handling.

The Python code is embedded shallowly:
* Python strings are `String` (lists of unicode code points); `str.strip()`
  is `pyStrip`, `str.split("-")` is `splitOnChar '-'` over the character
  list, `"-".join` is `joinSep '-'`, `s.isdigit()` is `pyIsDigit`
  (ASCII digits; the program's ids only use ASCII digits), and `int(s)`
  is `pyIntOfString` (optionally signed decimal numeral, surrounding
  whitespace tolerated, `none` on failure standing for `ValueError`).
* A pandas row of `manual_grades.csv` is a `GradeRecord`; the q1/q2 cells
  hold `""` or an int, embedded as `Option Int` (`none` = the empty cell).
  The dataframe is the list of its rows, in row order.
* Overwriting fields of the row `df[mask].index[-1]` in place is
  `replace_first` on the reversed list; appending via `pd.concat` is `++`.
* `sub.sort_values(["__sid_sort","student_id","name"])` is a stable sort
  (pandas multi-column sorting uses a stable lexsort) by the lexicographic
  triple (`sort_key_sid`, student id string, name string), with Python's
  string order embedded as code-point order `strLtB`.
* The openpyxl cell fills of one data row are the `Fill` list `rowFills`,
  built in the order the code applies them (alert row fill first, then the
  per-cell missing fills, which overwrite).
* For the column-presence side effect on the caller's dataframe
  (`export_gradebook` lines 108-112) the dataframe is a `DataFrame` with an
  explicit column list, since that claim is about table shape, not rows.
-/

/-! ### Python string primitives -/

/-- `str.strip()`: remove leading and trailing whitespace
(the program only ever meets ASCII whitespace). -/
def pyStrip (s : String) : String :=
  ⟨(((s.data.dropWhile Char.isWhitespace).reverse).dropWhile Char.isWhitespace).reverse⟩

/-- Value of a list of decimal digit characters, most significant first. -/
def pyDigitsVal (cs : List Char) : Nat :=
  cs.foldl (fun n c => n * 10 + (c.toNat - 48)) 0

/-- Python `int(s)` on an optionally signed decimal numeral, tolerating
surrounding whitespace; `none` models the `ValueError` raised otherwise.
(Python also accepts underscore separators and non-ASCII digits; the
program never feeds those.) -/
def pyIntOfString (s : String) : Option Int :=
  let cs := (pyStrip s).data
  if cs = [] then Option.none
  else if cs.head! = '-' then
    if cs.tail ≠ [] ∧ cs.tail.all Char.isDigit then some (-(pyDigitsVal cs.tail : Int))
    else Option.none
  else if cs.head! = '+' then
    if cs.tail ≠ [] ∧ cs.tail.all Char.isDigit then some ((pyDigitsVal cs.tail : Int))
    else Option.none
  else if cs.all Char.isDigit then some ((pyDigitsVal cs : Int))
  else Option.none

/-- Python `s.isdigit()` for the ASCII digit strings this program uses:
nonempty and all characters `0`-`9`. -/
def pyIsDigit (s : String) : Bool :=
  !s.data.isEmpty && s.data.all Char.isDigit

/-- Python `s.split(sep)` for a one-character separator, on the character
list: always returns at least one (possibly empty) segment. -/
def splitOnChar (sep : Char) : List Char → List (List Char)
  | [] => [[]]
  | c :: rest =>
    let r := splitOnChar sep rest
    if c = sep then [] :: r
    else
      match r with
      | [] => [[c]]
      | h :: t => (c :: h) :: t

/-- Python `sep.join(parts)` for a one-character separator. -/
def joinSep (sep : Char) : List (List Char) → List Char
  | [] => []
  | [x] => x
  | x :: rest => x ++ sep :: joinSep sep rest

/-! ### clamp_int (lines 82-89 of the source) -/

/-- `clamp_int(s, lo, hi, default=None)`: parse `int(str(s).strip())`,
clamp into `[lo, hi]`; `none` (the default) on parse failure. -/
def clamp_int (s : String) (lo hi : Int) : Option Int :=
  match pyIntOfString (pyStrip s) with
  | Option.none => Option.none
  | some v => some (if v < lo then lo else if v > hi then hi else v)

/-! ### parse_filename_meta (lines 65-80) -/

structure FileMeta where
  class_time : String
  name : String
  student_id : String
deriving DecidableEq, Repr

/-- Scanning loop of `firstDigitRun`; the fuel argument only makes the
recursion structural, `fuel ≥ cs.length` renders it inexhaustible. -/
def firstDigitRunGo : Nat → List Char → Option (List Char)
  | _, [] => Option.none
  | 0, _ :: _ => Option.none
  | fuel + 1, c :: rest =>
    if c.isDigit then
      let run := c :: rest.takeWhile Char.isDigit
      if 8 ≤ run.length then some run
      else firstDigitRunGo fuel (rest.dropWhile Char.isDigit)
    else firstDigitRunGo fuel rest

/-- The regex search `re.search(r"(\d{8,})", base)`: the leftmost maximal
run of 8 or more consecutive digits, if any. A maximal run shorter than 8
can never contain a match start, so the scan may skip over it whole. -/
def firstDigitRun (cs : List Char) : Option (List Char) :=
  firstDigitRunGo cs.length cs

/-- `parse_filename_meta` on the file stem (the code first strips directory
and extension; `base` here is that stem). -/
def parse_filename_meta (base : String) : FileMeta :=
  let parts := splitOnChar '-' base.data
  if 3 ≤ parts.length then
    { student_id := pyStrip ⟨(parts.getLast?).getD []⟩,
      name := pyStrip ⟨(parts.get? (parts.length - 2)).getD []⟩,
      class_time := pyStrip ⟨joinSep '-' (parts.take (parts.length - 2))⟩ }
  else
    { class_time := pyStrip base,
      name := "",
      student_id :=
        match firstDigitRun base.data with
        | some run => ⟨run⟩
        | Option.none => "" }

/-! ### The record store (save_current, lines 653-683) -/

/-- One row of `manual_grades.csv` / `self.df`. `q1_score`/`q2_score` cells
hold `""` (here `none`) or an integer. -/
structure GradeRecord where
  class_time : String
  name : String
  student_id : String
  q1_score : Option Int
  q2_score : Option Int
  total_score : Int
  comment : String
  file : String
deriving DecidableEq, Repr

/-- Replace the first row whose `student_id` equals `sid` with `r`
(used on the reversed table to model overwriting `df[mask].index[-1]`). -/
def replace_first : List GradeRecord → String → GradeRecord → List GradeRecord
  | [], _, _ => []
  | row :: rest, sid, r =>
    if row.student_id = sid then r :: rest
    else row :: replace_first rest sid r

/-- The store update inside `save_current`: with a nonempty id matching an
existing row, overwrite the last matching row's fields in place; otherwise
(no match, or empty id) append the record. -/
def upsert (df : List GradeRecord) (record : GradeRecord) : List GradeRecord :=
  let sid := record.student_id
  if sid = "" then df ++ [record]
  else if df.any (fun row => row.student_id = sid) then
    (replace_first df.reverse sid record).reverse
  else df ++ [record]

/-- The widget state `save_current` reads: the two score entry texts, the
meta labels and the comment box. -/
structure SaveInput where
  class_time : String
  name : String
  student_id : String
  file : String
  comment : String
  entry_q1 : String
  entry_q2 : String
deriving DecidableEq, Repr

/-- Outcome of `save_current`: the return value, the table afterwards,
whether the warning dialog was shown, the record saved (if any), and the
table serialized to `manual_grades.csv` (`none` = no write happened). -/
structure SaveResult where
  ok : Bool
  df : List GradeRecord
  warned : Bool
  saved : Option GradeRecord
  persisted : Option (List GradeRecord)
deriving DecidableEq, Repr

/-- `save_current` (lines 653-683): compute q1/q2/total via `clamp_int`;
if both are absent, warn and return `False` without touching the table or
the CSV; otherwise build the record, upsert it and write the CSV. -/
def save_current (inp : SaveInput) (df : List GradeRecord) : SaveResult :=
  let q1 := clamp_int inp.entry_q1 0 50
  let q2 := clamp_int inp.entry_q2 0 50
  let total := q1.getD 0 + q2.getD 0
  match q1, q2 with
  | Option.none, Option.none =>
    { ok := false, df := df, warned := true, saved := Option.none, persisted := Option.none }
  | _, _ =>
    let record : GradeRecord :=
      { class_time := inp.class_time,
        name := inp.name,
        student_id := pyStrip inp.student_id,
        q1_score := q1,
        q2_score := q2,
        total_score := total,
        comment := pyStrip inp.comment,
        file := inp.file }
    let df' := upsert df record
    { ok := true, df := df', warned := false, saved := some record, persisted := some df' }

/-- Number of rows of the table carrying student id `s`. -/
def sidCount (df : List GradeRecord) (s : String) : Nat :=
  (df.filter (fun r => r.student_id = s)).length

/-- The Record Store invariant: at most one row per nonempty student id. -/
def AtMostOnePerSid (df : List GradeRecord) : Prop :=
  ∀ s : String, s ≠ "" → sidCount df s ≤ 1

/-! ### Quick-entry state machine (lines 520-621) -/

/-- The quick-entry state: `_quick_stage` (1 = awaiting q1 digits,
2 = awaiting q2 digits, 3 = ready to save), `_quick_buffer`, and the two
score entry widgets' texts. -/
structure QuickState where
  stage : Nat
  buffer : String
  entry_q1 : String
  entry_q2 : String
deriving DecidableEq, Repr

/-- `_commit_quick_buffer`'s committed value: empty (stripped) buffer is 0,
otherwise `int(buffer)` with exceptions mapped to 0, then clamped by
`max(0, min(50, val))`. -/
def commit_val (buf : String) : Int :=
  let v : Int := if pyStrip buf = "" then 0 else (pyIntOfString buf).getD 0
  max 0 (min 50 v)

/-- `_preview_quick_value` (lines 520-548): re-render the live preview of
the current stage's entry from the buffer; empty buffer clears the entry. -/
def preview_quick (st : QuickState) : QuickState :=
  if ¬(st.stage = 1 ∨ st.stage = 2) then st
  else if pyStrip st.buffer = "" then
    if st.stage = 1 then { st with entry_q1 := "" } else { st with entry_q2 := "" }
  else
    let v := max 0 (min 50 ((pyIntOfString st.buffer).getD 0))
    if st.stage = 1 then { st with entry_q1 := toString v }
    else { st with entry_q2 := toString v }

/-- `_on_keypress` (lines 574-590) outside the comment field: digits in
stages 1/2 extend the buffer, except that a buffer already holding two
characters is replaced by the new digit; then the preview re-renders. -/
def on_keypress (st : QuickState) (ch : Char) : QuickState :=
  if ¬(st.stage = 1 ∨ st.stage = 2) then st
  else if ¬ch.isDigit then st
  else
    let buf := if 2 ≤ st.buffer.length then String.singleton ch else st.buffer.push ch
    preview_quick { st with buffer := buf }

/-- `_on_enter` (lines 601-621) outside the comment field. The returned
`Bool` records whether `save_and_next` was triggered (stage 3); the code
then unconditionally resets to stage 1 with an empty buffer. -/
def on_enter (st : QuickState) : QuickState × Bool :=
  if st.stage = 1 then
    ({ st with stage := 2, buffer := "", entry_q1 := toString (commit_val st.buffer) }, false)
  else if st.stage = 2 then
    ({ st with stage := 3, buffer := "", entry_q2 := toString (commit_val st.buffer) }, false)
  else
    ({ st with stage := 1, buffer := "" }, true)

/-! ### Gradebook exporter: sorting (lines 146-152) -/

/-- `sort_key_sid(s)`: `int(s)` when the stripped id is a digit string,
otherwise the sentinel `10**18`. -/
def sort_key_sid (s : String) : Nat :=
  let t := pyStrip s
  if pyIsDigit t then pyDigitsVal t.data else 10 ^ 18

/-- Python code-point `<` on strings (as character lists). -/
def strLtB : List Char → List Char → Bool
  | [], [] => false
  | [], _ :: _ => true
  | _ :: _, [] => false
  | a :: as, b :: bs =>
    if a.toNat < b.toNat then true
    else if b.toNat < a.toNat then false
    else strLtB as bs

/-- The comparison realized by
`sort_values(["__sid_sort","student_id","name"], ascending=True)`:
lexicographic on (numeric key, student id string, name string). -/
def rowLe (a b : GradeRecord) : Bool :=
  let ka := sort_key_sid a.student_id
  let kb := sort_key_sid b.student_id
  if ka < kb then true
  else if kb < ka then false
  else if strLtB a.student_id.data b.student_id.data then true
  else if strLtB b.student_id.data a.student_id.data then false
  else !strLtB b.name.data a.name.data

/-- Stable insertion into a sorted list: the new row goes after every row
that compares `≤` it, as a stable sort (pandas lexsort) requires. -/
def ins_sorted (x : GradeRecord) : List GradeRecord → List GradeRecord
  | [] => [x]
  | y :: ys => if rowLe y x then y :: ins_sorted x ys else x :: y :: ys

/-- The stable sort of one sheet's rows by `rowLe`. -/
def sortRows (rows : List GradeRecord) : List GradeRecord :=
  rows.foldl (fun acc r => ins_sorted r acc) []

/-- The rows selected for the sheet labelled `ct` (lines 139-144): those
whose stripped `class_time` equals `ct`, with blank class times grouped
under the literal label `未分组`. -/
def sectionRows (df : List GradeRecord) (ct : String) : List GradeRecord :=
  df.filter (fun r => pyStrip r.class_time = (if ct = "未分组" then "" else ct))

/-- The data rows of the sheet labelled `ct`, in emitted order. -/
def sheetRows (df : List GradeRecord) (ct : String) : List GradeRecord :=
  sortRows (sectionRows df ct)

/-! ### Gradebook exporter: highlighting (lines 176-195) -/

inductive Fill where
  | noFill : Fill
  | missing : Fill
  | alert : Fill
deriving DecidableEq, Repr

/-- `str(cell.value or "")` for a q1/q2 cell, which holds `""` or an int:
note Python's `or` also maps the integer 0 to `""`. -/
def pyValStr (v : Option Int) : String :=
  match v with
  | Option.none => ""
  | some n => if n = 0 then "" else toString n

/-- Emptiness test the exporter applies to the name / student id cells. -/
def strCellEmpty (s : String) : Bool := pyStrip s = ""

/-- Emptiness test the exporter applies to the q1 / q2 cells. -/
def qCellEmpty (v : Option Int) : Bool := pyStrip (pyValStr v) = ""

/-- The fills of one emitted data row, cells in column order
(class_time, name, student_id, q1, q2, total, comment, file), applied in
the code's order: a full `alert` row fill when name or id is blank, then a
`missing` fill overwriting the q1 cell and/or the q2 cell when blank. -/
def rowFills (r : GradeRecord) : List Fill :=
  let base :=
    if strCellEmpty r.name || strCellEmpty r.student_id then
      List.replicate 8 Fill.alert
    else List.replicate 8 Fill.noFill
  let f3 := if qCellEmpty r.q1_score then base.set 3 Fill.missing else base
  if qCellEmpty r.q2_score then f3.set 4 Fill.missing else f3

/-! ### Gradebook exporter: column coercion on the input table (108-112) -/

inductive PyVal where
  | str : String → PyVal
  | int : Int → PyVal
deriving DecidableEq, Repr

/-- A pandas dataframe at the precision this claim needs: named columns
and row-major cells. -/
structure DataFrame where
  cols : List String
  rows : List (List PyVal)
deriving DecidableEq, Repr

/-- The eight canonical gradebook columns, in the exporter's fixed order. -/
def CANON_COLS : List String :=
  ["class_time", "name", "student_id", "q1_score", "q2_score", "total_score", "comment", "file"]

/-- `df[c] = ""`: append a column filled with the empty string. -/
def addEmptyCol (df : DataFrame) (c : String) : DataFrame :=
  { cols := df.cols ++ [c], rows := df.rows.map (fun r => r ++ [PyVal.str ""]) }

/-- `for c in cols: if c not in df.columns: df[c] = ""` over column list `cs`. -/
def ensureCols (cs : List String) (df : DataFrame) : DataFrame :=
  cs.foldl (fun d c => if c ∈ d.cols then d else addEmptyCol d c) df

/-- What `export_gradebook` does to the dataframe object passed in, before
taking its working copy `df2 = df.copy()`: the canonical-column coercion is
the only mutation of the caller's table. -/
def export_gradebook_input_effect (df : DataFrame) : DataFrame :=
  ensureCols CANON_COLS df

/-! ### Character-level helper lemmas -/

theorem digit_toNat_bounds {c : Char} (h : c.isDigit = true) :
    48 ≤ c.toNat ∧ c.toNat ≤ 57 := by
  simp [Char.isDigit] at h
  obtain ⟨h1, h2⟩ := h
  exact ⟨UInt32.le_toNat_of_le (by decide) h1, UInt32.toNat_le_of_le (by decide) h2⟩

theorem char_eq_of_toNat_eq {a b : Char} (h : a.toNat = b.toNat) : a = b :=
  Char.eq_of_val_eq (UInt32.toNat.inj h)

theorem ws_toNat {c : Char} (h : c.isWhitespace = true) :
    c.toNat = 32 ∨ c.toNat = 9 ∨ c.toNat = 13 ∨ c.toNat = 10 := by
  simp [Char.isWhitespace] at h
  rcases h with ((h | h) | h) | h <;> subst h <;> decide

theorem digit_not_ws {c : Char} (h : c.isDigit = true) : c.isWhitespace = false := by
  by_contra hc
  simp at hc
  have hb := digit_toNat_bounds h
  rcases ws_toNat hc with h' | h' | h' | h' <;> omega

theorem dropWhile_of_all_not {p : α → Bool} {l : List α}
    (h : ∀ a ∈ l, p a = false) : l.dropWhile p = l := by
  cases l with
  | nil => rfl
  | cons a l => exact List.dropWhile_cons_of_neg (by simp [h a (by simp)])

theorem pyStrip_of_all_digit {s : String} (h : s.data.all Char.isDigit = true) :
    pyStrip s = s := by
  have hnw : ∀ a ∈ s.data, a.isWhitespace = false := by
    intro a ha
    simp [List.all_eq_true] at h
    exact digit_not_ws (h a ha)
  have h1 : s.data.dropWhile Char.isWhitespace = s.data := dropWhile_of_all_not hnw
  have h2 : s.data.reverse.dropWhile Char.isWhitespace = s.data.reverse :=
    dropWhile_of_all_not (by intro a ha; exact hnw a (by simpa using ha))
  simp [pyStrip, h1, h2]

theorem pyIntOfString_digits {s : String} (hne : s.data ≠ [])
    (h : s.data.all Char.isDigit = true) :
    pyIntOfString s = some ((pyDigitsVal s.data : Nat) : Int) := by
  have hs : pyStrip s = s := pyStrip_of_all_digit h
  cases hd : s.data with
  | nil => exact absurd hd hne
  | cons c cs =>
    have hc : c.isDigit = true := by
      rw [hd] at h
      simp only [List.all_cons, Bool.and_eq_true] at h
      exact h.1
    obtain ⟨hb1, hb2⟩ := digit_toNat_bounds hc
    have hminus : ¬(c = '-') := by
      intro he
      have h45 : ('-' : Char).toNat = 45 := by decide
      rw [he, h45] at hb1
      omega
    have hplus : ¬(c = '+') := by
      intro he
      have h43 : ('+' : Char).toNat = 43 := by decide
      rw [he, h43] at hb1
      omega
    simp only [pyIntOfString, hs, hd]
    rw [if_neg (List.cons_ne_nil c cs)]
    have hhd : (c :: cs).head! = c := rfl
    rw [hhd, if_neg hminus, if_neg hplus, if_pos (hd ▸ h)]

theorem pyDigitsVal_lt_100 {cs : List Char} (hlen : cs.length ≤ 2)
    (h : cs.all Char.isDigit = true) : pyDigitsVal cs < 100 := by
  match cs, hlen with
  | [], _ => simp [pyDigitsVal]
  | [a], _ =>
    have := digit_toNat_bounds (by simp [List.all_eq_true] at h; exact h)
    simp [pyDigitsVal]; omega
  | [a, b], _ =>
    simp [List.all_eq_true] at h
    have ha := digit_toNat_bounds h.1
    have hb := digit_toNat_bounds h.2
    simp [pyDigitsVal, List.foldl]
    omega

theorem clamp_int_bounds {s : String} {lo hi v : Int} (hlh : lo ≤ hi)
    (h : clamp_int s lo hi = some v) : lo ≤ v ∧ v ≤ hi := by
  rw [clamp_int] at h
  cases hp : pyIntOfString (pyStrip s) with
  | none => rw [hp] at h; exact absurd h (by simp)
  | some w =>
    rw [hp] at h
    simp only [Option.some.injEq] at h
    subst h
    split <;> [omega; skip]
    split <;> omega

/-! ### ensureCols characterization -/

theorem dataFrame_eq_of_parts {a b : DataFrame} (h1 : a.cols = b.cols)
    (h2 : a.rows = b.rows) : a = b := by
  cases a
  cases b
  simp_all

theorem ensureCols_spec (cs : List String) (df : DataFrame) (h : cs.Nodup) :
    (ensureCols cs df).cols = df.cols ++ cs.filter (fun c => decide (c ∉ df.cols)) ∧
    (ensureCols cs df).rows = df.rows.map
      (fun r => r ++ List.replicate
        (cs.filter (fun c => decide (c ∉ df.cols))).length (PyVal.str "")) := by
  induction cs generalizing df with
  | nil => simp [ensureCols]
  | cons c cs ih =>
    rw [List.nodup_cons] at h
    have hstep : ensureCols (c :: cs) df =
        ensureCols cs (if c ∈ df.cols then df else addEmptyCol df c) := by
      simp [ensureCols]
    by_cases hc : c ∈ df.cols
    · rw [hstep, if_pos hc]
      have := ih df h.2
      simpa [hc] using this
    · rw [hstep, if_neg hc]
      obtain ⟨ihc, ihr⟩ := ih (addEmptyCol df c) h.2
      have hfilter : cs.filter (fun x => decide (x ∉ (addEmptyCol df c).cols)) =
          cs.filter (fun x => decide (x ∉ df.cols)) := by
        apply List.filter_congr
        intro x hx
        have hxc : x ≠ c := fun he => h.1 (he ▸ hx)
        simp [addEmptyCol, hxc]
      constructor
      · rw [ihc, hfilter]
        simp [addEmptyCol, hc]
      · rw [ihr, hfilter]
        simp only [addEmptyCol, List.map_map]
        rw [List.filter_cons_of_pos (by simp [hc])]
        apply List.map_congr_left
        intro r _
        simp [List.replicate_succ]

/-- C10: `export_gradebook` mutates its input table in place exactly by
appending each absent canonical column filled with empty strings; a table
already carrying all eight columns is left unchanged. -/
theorem export_mutates_input_columns (df : DataFrame) :
    ((∀ c ∈ CANON_COLS, c ∈ df.cols) → export_gradebook_input_effect df = df) ∧
    (export_gradebook_input_effect df).cols =
      df.cols ++ CANON_COLS.filter (fun c => decide (c ∉ df.cols)) ∧
    (export_gradebook_input_effect df).rows = df.rows.map
      (fun r => r ++ List.replicate
        (CANON_COLS.filter (fun c => decide (c ∉ df.cols))).length (PyVal.str "")) := by
  obtain ⟨hcols, hrows⟩ := ensureCols_spec CANON_COLS df (by decide)
  refine ⟨?_, hcols, hrows⟩
  intro hall
  have hnil : CANON_COLS.filter (fun c => decide (c ∉ df.cols)) = [] := by
    rw [List.filter_eq_nil_iff]
    intro c hc
    simp [hall c hc]
  have h1 := hcols
  have h2 := hrows
  rw [hnil] at h1 h2
  simp only [List.append_nil, List.replicate_zero] at h1 h2
  apply dataFrame_eq_of_parts
  · show (ensureCols CANON_COLS df).cols = df.cols
    exact h1
  · show (ensureCols CANON_COLS df).rows = df.rows
    rw [h2]
    simp

/-- C10 witness: a table that already has the eight canonical columns is
returned unchanged by the export's column coercion. -/
theorem export_mutates_input_columns_witness :
    export_gradebook_input_effect
        { cols := CANON_COLS, rows := [[PyVal.str "a"], [PyVal.int 3]] } =
      { cols := CANON_COLS, rows := [[PyVal.str "a"], [PyVal.int 3]] } :=
  (export_mutates_input_columns
    { cols := CANON_COLS, rows := [[PyVal.str "a"], [PyVal.int 3]] }).1 (by decide)

/-! ### save_current: validation failure and derived total -/

/-- C4: with both sub-scores absent (entries empty or unparsable), the
save is rejected: the warning is shown, `False` is returned, the table is
exactly the old one, and no CSV write happens. -/
theorem save_current_rejects_both_absent (inp : SaveInput) (df : List GradeRecord)
    (h1 : clamp_int inp.entry_q1 0 50 = Option.none)
    (h2 : clamp_int inp.entry_q2 0 50 = Option.none) :
    save_current inp df =
      { ok := false, df := df, warned := true,
        saved := Option.none, persisted := Option.none } := by
  simp [save_current, h1, h2]

/-- C4 witness: an empty q1 entry and a non-numeric q2 entry are rejected
and leave the table and the CSV alone. -/
theorem save_current_rejects_both_absent_witness :
    save_current
        { class_time := "c", name := "n", student_id := "1", file := "f",
          comment := "", entry_q1 := "", entry_q2 := "abc" }
        [] =
      { ok := false, df := [], warned := true,
        saved := Option.none, persisted := Option.none } :=
  save_current_rejects_both_absent
    { class_time := "c", name := "n", student_id := "1", file := "f",
      comment := "", entry_q1 := "", entry_q2 := "abc" }
    [] (by decide) (by decide)

/-- C7: every record a successful save stores has
`total_score = (q1 or 0) + (q2 or 0)` with each stored sub-score either
absent or an integer in `[0, 50]`. -/
theorem save_total_derived (inp : SaveInput) (df : List GradeRecord)
    (r : GradeRecord) (h : (save_current inp df).saved = some r) :
    r.total_score = r.q1_score.getD 0 + r.q2_score.getD 0 ∧
    (∀ v : Int, r.q1_score = some v → 0 ≤ v ∧ v ≤ 50) ∧
    (∀ v : Int, r.q2_score = some v → 0 ≤ v ∧ v ≤ 50) := by
  rw [save_current] at h
  cases hq1 : clamp_int inp.entry_q1 0 50 with
  | none =>
    cases hq2 : clamp_int inp.entry_q2 0 50 with
    | none =>
      rw [hq1, hq2] at h
      exact absurd h (by simp)
    | some v2 =>
      rw [hq1, hq2] at h
      simp only [Option.some.injEq] at h
      subst h
      refine ⟨by simp, by simp, ?_⟩
      intro v hv
      simp only [Option.some.injEq] at hv
      subst hv
      exact clamp_int_bounds (by omega) hq2
  | some v1 =>
    rw [hq1] at h
    cases hq2 : clamp_int inp.entry_q2 0 50 with
    | none =>
      rw [hq2] at h
      simp only [Option.some.injEq] at h
      subst h
      refine ⟨by simp, ?_, by simp⟩
      intro v hv
      simp only [Option.some.injEq] at hv
      subst hv
      exact clamp_int_bounds (by omega) hq1
    | some v2 =>
      rw [hq2] at h
      simp only [Option.some.injEq] at h
      subst h
      refine ⟨by simp, ?_, ?_⟩ <;> intro v hv <;> simp only [Option.some.injEq] at hv <;>
        subst hv
      · exact clamp_int_bounds (by omega) hq1
      · exact clamp_int_bounds (by omega) hq2

/-- C7 witness: saving with q1 = "30" and q2 empty stores the record with
total 30 = 30 + 0 and a stored q1 in range. -/
theorem save_total_derived_witness :
    ({ class_time := "c", name := "n", student_id := "1", q1_score := some 30, q2_score := Option.none, total_score := 30, comment := "", file := "f" } : GradeRecord).total_score =
      ({ class_time := "c", name := "n", student_id := "1", q1_score := some 30, q2_score := Option.none, total_score := 30, comment := "", file := "f" } : GradeRecord).q1_score.getD 0 +
      ({ class_time := "c", name := "n", student_id := "1", q1_score := some 30, q2_score := Option.none, total_score := 30, comment := "", file := "f" } : GradeRecord).q2_score.getD 0 ∧
    (∀ v : Int, ({ class_time := "c", name := "n", student_id := "1", q1_score := some 30, q2_score := Option.none, total_score := 30, comment := "", file := "f" } : GradeRecord).q1_score = some v → 0 ≤ v ∧ v ≤ 50) ∧
    (∀ v : Int, ({ class_time := "c", name := "n", student_id := "1", q1_score := some 30, q2_score := Option.none, total_score := 30, comment := "", file := "f" } : GradeRecord).q2_score = some v → 0 ≤ v ∧ v ≤ 50) :=
  save_total_derived
    { class_time := "c", name := "n", student_id := "1", file := "f", comment := "", entry_q1 := "30", entry_q2 := "" }
    []
    { class_time := "c", name := "n", student_id := "1", q1_score := some 30, q2_score := Option.none, total_score := 30, comment := "", file := "f" }
    (by decide)

/-! ### Quick-entry state machine -/

theorem commit_val_range (buf : String) : 0 ≤ commit_val buf ∧ commit_val buf ≤ 50 := by
  rw [commit_val]
  constructor
  · exact le_max_left 0 _
  · apply max_le (by omega)
    exact min_le_left 50 _

theorem preview_quick_buffer (st : QuickState) : (preview_quick st).buffer = st.buffer := by
  rw [preview_quick]
  split
  · rfl
  · split
    · split <;> rfl
    · split <;> rfl

/-- C5: Enter outside the comment field commits the buffer (empty buffer
commits 0; the value is clamped into [0, 50]) into q1 in stage 1 and into
q2 in stage 2, clears the buffer and advances the stage; in stage 3
(ready-to-save) it triggers save-and-next and unconditionally resets to
stage 1 with an empty buffer. -/
theorem quick_enter_transitions (st : QuickState) :
    (st.stage = 1 → on_enter st =
      ({ stage := 2, buffer := "", entry_q1 := toString (commit_val st.buffer), entry_q2 := st.entry_q2 }, false)) ∧
    (st.stage = 2 → on_enter st =
      ({ stage := 3, buffer := "", entry_q1 := st.entry_q1, entry_q2 := toString (commit_val st.buffer) }, false)) ∧
    (st.stage = 3 → on_enter st =
      ({ stage := 1, buffer := "", entry_q1 := st.entry_q1, entry_q2 := st.entry_q2 }, true)) ∧
    commit_val "" = 0 ∧
    (∀ b : String, 0 ≤ commit_val b ∧ commit_val b ≤ 50) := by
  refine ⟨?_, ?_, ?_, by decide, commit_val_range⟩
  · intro h1
    rw [on_enter, if_pos h1]
  · intro h2
    rw [on_enter, if_neg (by omega), if_pos h2]
  · intro h3
    rw [on_enter, if_neg (by omega), if_neg (by omega)]

/-- C5 witness: the spec's scenario step "digits 3,0 then Enter" — from
stage 1 with buffer "30", Enter commits q1 = 30, clears the buffer and
moves to stage 2; and from stage 3, Enter triggers save-and-next and
resets to stage 1. -/
theorem quick_enter_transitions_witness :
    on_enter { stage := 1, buffer := "30", entry_q1 := "30", entry_q2 := "" } =
      ({ stage := 2, buffer := "", entry_q1 := "30", entry_q2 := "" }, false) ∧
    on_enter { stage := 3, buffer := "", entry_q1 := "30", entry_q2 := "7" } =
      ({ stage := 1, buffer := "", entry_q1 := "30", entry_q2 := "7" }, true) := by
  constructor
  · have h := (quick_enter_transitions { stage := 1, buffer := "30", entry_q1 := "30", entry_q2 := "" }).1 rfl
    rw [h]
    decide
  · exact (quick_enter_transitions { stage := 3, buffer := "", entry_q1 := "30", entry_q2 := "7" }).2.2.1 rfl

/-- C9: a digit keystroke in stage 1 or 2 replaces a two-character buffer
with just the new digit and appends otherwise; the buffer stays at most
two digits long, stays all-digits, and the value it denotes — what
`int(buffer)` parses — stays below 100. -/
theorem quick_buffer_two_digit_cap (st : QuickState) (ch : Char)
    (hst : st.stage = 1 ∨ st.stage = 2) (hch : ch.isDigit = true)
    (hlen : st.buffer.length ≤ 2) (hdig : st.buffer.data.all Char.isDigit = true) :
    ((on_keypress st ch).buffer =
      if 2 ≤ st.buffer.length then String.singleton ch else st.buffer.push ch) ∧
    (on_keypress st ch).buffer.length ≤ 2 ∧
    (on_keypress st ch).buffer.data.all Char.isDigit = true ∧
    pyDigitsVal (on_keypress st ch).buffer.data < 100 ∧
    pyIntOfString (on_keypress st ch).buffer =
      some ((pyDigitsVal (on_keypress st ch).buffer.data : Nat) : Int) := by
  have hbuf : (on_keypress st ch).buffer =
      if 2 ≤ st.buffer.length then String.singleton ch else st.buffer.push ch := by
    rw [on_keypress, if_neg (by simp [hst]), if_neg (by simp [hch])]
    exact preview_quick_buffer _
  refine ⟨hbuf, ?_⟩
  rw [hbuf]
  by_cases h2 : 2 ≤ st.buffer.length
  · rw [if_pos h2]
    have hdata : (String.singleton ch).data = [ch] := rfl
    have hall : (String.singleton ch).data.all Char.isDigit = true := by
      rw [hdata]
      simp [hch]
    have hl1 : (String.singleton ch).length ≤ 2 := by
      show (String.singleton ch).data.length ≤ 2
      rw [hdata]
      simp
    refine ⟨hl1, hall, ?_, ?_⟩
    · exact pyDigitsVal_lt_100 (by rw [hdata]; simp) (by rw [hdata] at hall ⊢; exact hall)
    · exact pyIntOfString_digits (by rw [hdata]; simp) hall
  · rw [if_neg h2]
    have hlen1 : st.buffer.length ≤ 1 := by omega
    have hdata : (st.buffer.push ch).data = st.buffer.data ++ [ch] := rfl
    have hall : (st.buffer.push ch).data.all Char.isDigit = true := by
      rw [hdata, List.all_append]
      simp [hdig, hch]
    have hlp : (st.buffer.push ch).length ≤ 2 := by
      have : (st.buffer.push ch).length = st.buffer.length + 1 := by
        show (st.buffer.push ch).data.length = st.buffer.data.length + 1
        rw [hdata]
        simp
      omega
    refine ⟨hlp, hall, ?_, ?_⟩
    · apply pyDigitsVal_lt_100
      · show (st.buffer.push ch).data.length ≤ 2
        exact hlp
      · exact hall
    · exact pyIntOfString_digits (by rw [hdata]; simp) hall

/-- C9 witness: the spec's example — buffer "99" in stage 1, digit 5 typed:
the buffer becomes "5", not "995". -/
theorem quick_buffer_two_digit_cap_witness :
    (on_keypress { stage := 1, buffer := "99", entry_q1 := "50", entry_q2 := "" } '5').buffer = "5" := by
  have h := (quick_buffer_two_digit_cap
    { stage := 1, buffer := "99", entry_q1 := "50", entry_q2 := "" } '5'
    (Or.inl rfl) (by decide) (by decide) (by decide)).1
  rw [h]
  decide

/-! ### Record store: upsert lemmas -/

theorem replace_first_spec (xs : List GradeRecord) (sid : String) (r : GradeRecord)
    (h : xs.any (fun row => row.student_id = sid) = true) :
    ∃ a old b, xs = a ++ old :: b ∧ old.student_id = sid ∧
      (∀ x ∈ a, x.student_id ≠ sid) ∧ replace_first xs sid r = a ++ r :: b := by
  induction xs with
  | nil => simp at h
  | cons row rest ih =>
    by_cases hr : row.student_id = sid
    · exact ⟨[], row, rest, by simp, hr, by simp, by simp [replace_first, hr]⟩
    · have h' : rest.any (fun row => row.student_id = sid) = true := by
        simp only [List.any_cons, Bool.or_eq_true, decide_eq_true_eq] at h
        exact h.resolve_left hr
      obtain ⟨a, old, b, hxs, hold, hn, hrw⟩ := ih h'
      refine ⟨row :: a, old, b, by simp [hxs], hold, ?_, ?_⟩
      · intro x hx
        rcases List.mem_cons.mp hx with rfl | hx
        · exact hr
        · exact hn x hx
      · simp [replace_first, hr, hrw]

theorem replace_first_self (a b : List GradeRecord) (r : GradeRecord) (sid : String)
    (hr : r.student_id = sid) (ha : ∀ x ∈ a, x.student_id ≠ sid) :
    replace_first (a ++ r :: b) sid r = a ++ r :: b := by
  induction a with
  | nil => simp [replace_first, hr]
  | cons x xs ih =>
    have hx : x.student_id ≠ sid := ha x (by simp)
    rw [List.cons_append, replace_first, if_neg hx, ih (fun y hy => ha y (by simp [hy]))]

theorem upsert_of_empty_sid (df : List GradeRecord) (r : GradeRecord)
    (h : r.student_id = "") : upsert df r = df ++ [r] := by
  simp only [upsert]
  rw [if_pos h]

theorem upsert_of_absent (df : List GradeRecord) (r : GradeRecord)
    (hne : r.student_id ≠ "")
    (h : ¬ df.any (fun row => row.student_id = r.student_id) = true) :
    upsert df r = df ++ [r] := by
  simp only [upsert]
  rw [if_neg hne, if_neg h]

theorem upsert_present (df : List GradeRecord) (r : GradeRecord)
    (hne : r.student_id ≠ "")
    (hp : df.any (fun row => row.student_id = r.student_id) = true) :
    ∃ l1 old l2, df = l1 ++ old :: l2 ∧ old.student_id = r.student_id ∧
      (∀ x ∈ l2, x.student_id ≠ r.student_id) ∧ upsert df r = l1 ++ r :: l2 := by
  have hrev : df.reverse.any (fun row => row.student_id = r.student_id) = true := by
    rw [List.any_reverse]
    exact hp
  obtain ⟨a, old, b, hxs, hold, hn, hrw⟩ := replace_first_spec df.reverse r.student_id r hrev
  refine ⟨b.reverse, old, a.reverse, ?_, hold, ?_, ?_⟩
  · have hdf : df = df.reverse.reverse := by simp
    rw [hdf, hxs]
    simp
  · intro x hx
    exact hn x (by simpa using hx)
  · simp only [upsert]
    rw [if_neg hne, if_pos hp, hrw]
    simp

theorem upsert_of_last_self (l1 l2 : List GradeRecord) (r : GradeRecord)
    (hne : r.student_id ≠ "") (hn : ∀ x ∈ l2, x.student_id ≠ r.student_id) :
    upsert (l1 ++ r :: l2) r = l1 ++ r :: l2 := by
  have hp : (l1 ++ r :: l2).any (fun row => row.student_id = r.student_id) = true := by
    simp
  simp only [upsert]
  rw [if_neg hne, if_pos hp]
  have hrev : (l1 ++ r :: l2).reverse = l2.reverse ++ r :: l1.reverse := by simp
  rw [hrev, replace_first_self l2.reverse l1.reverse r r.student_id rfl
    (fun x hx => hn x (by simpa using hx))]
  simp

theorem sidCount_append (xs ys : List GradeRecord) (s : String) :
    sidCount (xs ++ ys) s = sidCount xs s + sidCount ys s := by
  simp [sidCount, List.filter_append]

theorem sidCount_cons (x : GradeRecord) (xs : List GradeRecord) (s : String) :
    sidCount (x :: xs) s = (if x.student_id = s then 1 else 0) + sidCount xs s := by
  simp only [sidCount, List.filter_cons]
  by_cases hx : x.student_id = s
  · simp [hx, Nat.add_comm]
  · simp [hx]

theorem sidCount_eq_zero_of_not_any (df : List GradeRecord) (s : String)
    (h : ¬ df.any (fun row => row.student_id = s) = true) : sidCount df s = 0 := by
  rw [sidCount, List.length_eq_zero]
  rw [List.filter_eq_nil_iff]
  intro x hx
  simp only [List.any_eq_true, not_exists, not_and] at h
  simpa using h x hx

theorem upsert_preserves_inv (df : List GradeRecord) (r : GradeRecord)
    (h : AtMostOnePerSid df) : AtMostOnePerSid (upsert df r) := by
  by_cases he : r.student_id = ""
  · intro s hs
    rw [upsert_of_empty_sid df r he, sidCount_append, sidCount_cons]
    have hns : ¬ r.student_id = s := fun hc => hs (by rw [← hc, he])
    have h0 : sidCount [] s = 0 := by simp [sidCount]
    rw [if_neg hns, h0]
    have := h s hs
    omega
  · by_cases hp : df.any (fun row => row.student_id = r.student_id) = true
    · obtain ⟨l1, old, l2, hdf, hold, _, hup⟩ := upsert_present df r he hp
      intro s hs
      rw [hup, sidCount_append, sidCount_cons]
      have hd := h s hs
      rw [hdf, sidCount_append, sidCount_cons, hold] at hd
      exact hd
    · intro s hs
      rw [upsert_of_absent df r he hp, sidCount_append, sidCount_cons]
      have h0 : sidCount [] s = 0 := by simp [sidCount]
      by_cases hrs : r.student_id = s
      · rw [if_pos hrs, h0]
        have hz : sidCount df s = 0 := by
          rw [← hrs]
          exact sidCount_eq_zero_of_not_any df r.student_id hp
        omega
      · rw [if_neg hrs, h0]
        have := h s hs
        omega

/-- C1: from a table with at most one row per nonempty student id, any
sequence of upserts preserves that invariant; an upsert whose nonempty id
already appears overwrites exactly the most recent matching row in place,
leaving every other row and the row order unchanged, and an upsert with an
empty id always appends. -/
theorem upsert_unique_sid_invariant (df : List GradeRecord) (h : AtMostOnePerSid df) :
    (∀ rs : List GradeRecord, AtMostOnePerSid (List.foldl upsert df rs)) ∧
    (∀ r : GradeRecord, r.student_id ≠ "" →
      df.any (fun row => row.student_id = r.student_id) = true →
      ∃ l1 old l2, df = l1 ++ old :: l2 ∧ old.student_id = r.student_id ∧
        (∀ x ∈ l2, x.student_id ≠ r.student_id) ∧ upsert df r = l1 ++ r :: l2) ∧
    (∀ r : GradeRecord, r.student_id = "" → upsert df r = df ++ [r]) := by
  refine ⟨?_, fun r hne hp => upsert_present df r hne hp,
    fun r he => upsert_of_empty_sid df r he⟩
  intro rs
  induction rs generalizing df with
  | nil => exact h
  | cons r rs ih =>
    rw [List.foldl_cons]
    exact ih (upsert df r) (upsert_preserves_inv df r h)

/-- C1 witness: starting from the empty table (trivially duplicate-free),
the invariant holds after upserting two records, one of them twice. -/
theorem upsert_unique_sid_invariant_witness :
    AtMostOnePerSid (List.foldl upsert []
      [{ class_time := "c", name := "a", student_id := "11112222", q1_score := some 1, q2_score := Option.none, total_score := 1, comment := "", file := "f1" },
       { class_time := "c", name := "b", student_id := "33334444", q1_score := some 2, q2_score := Option.none, total_score := 2, comment := "", file := "f2" },
       { class_time := "c", name := "a", student_id := "11112222", q1_score := some 3, q2_score := some 4, total_score := 7, comment := "", file := "f1" }]) :=
  (upsert_unique_sid_invariant []
    (fun s _ => by simp [sidCount])).1
    [{ class_time := "c", name := "a", student_id := "11112222", q1_score := some 1, q2_score := Option.none, total_score := 1, comment := "", file := "f1" },
     { class_time := "c", name := "b", student_id := "33334444", q1_score := some 2, q2_score := Option.none, total_score := 2, comment := "", file := "f2" },
     { class_time := "c", name := "a", student_id := "11112222", q1_score := some 3, q2_score := some 4, total_score := 7, comment := "", file := "f1" }]

/-- C2 counterexample: the claim quantifies over every record, but a
record with empty student id is appended by both upserts: two identical
upserts leave two rows where one upsert leaves one, so upserting twice is
not the same as upserting once. -/
theorem upsert_twice_empty_sid_duplicates :
    upsert (upsert []
        { class_time := "c", name := "n", student_id := "", q1_score := some 1, q2_score := Option.none, total_score := 1, comment := "", file := "f" })
        { class_time := "c", name := "n", student_id := "", q1_score := some 1, q2_score := Option.none, total_score := 1, comment := "", file := "f" } ≠
      upsert []
        { class_time := "c", name := "n", student_id := "", q1_score := some 1, q2_score := Option.none, total_score := 1, comment := "", file := "f" } := by
  decide

/-- C2 (amended): upserting a record with nonempty student id twice in
succession produces the same table as upserting it once. -/
theorem upsert_idempotent_of_sid_nonempty (df : List GradeRecord) (r : GradeRecord)
    (h : r.student_id ≠ "") : upsert (upsert df r) r = upsert df r := by
  by_cases hp : df.any (fun row => row.student_id = r.student_id) = true
  · obtain ⟨l1, _, l2, _, _, hn, hup⟩ := upsert_present df r h hp
    rw [hup]
    exact upsert_of_last_self l1 l2 r h hn
  · rw [upsert_of_absent df r h hp]
    have := upsert_of_last_self df [] r h (by simp)
    simpa using this

/-- C2 witness: a concrete record with nonempty id, upserted twice into
the empty table, yields the same single-row table as upserting it once. -/
theorem upsert_idempotent_of_sid_nonempty_witness :
    upsert (upsert []
        { class_time := "c", name := "n", student_id := "12345678", q1_score := some 1, q2_score := Option.none, total_score := 1, comment := "", file := "f" })
        { class_time := "c", name := "n", student_id := "12345678", q1_score := some 1, q2_score := Option.none, total_score := 1, comment := "", file := "f" } =
      upsert []
        { class_time := "c", name := "n", student_id := "12345678", q1_score := some 1, q2_score := Option.none, total_score := 1, comment := "", file := "f" } :=
  upsert_idempotent_of_sid_nonempty []
    { class_time := "c", name := "n", student_id := "12345678", q1_score := some 1, q2_score := Option.none, total_score := 1, comment := "", file := "f" }
    (by decide)

/-! ### Exporter sorting: comparator lemmas -/

theorem strLtB_irrefl (a : List Char) : strLtB a a = false := by
  induction a with
  | nil => rfl
  | cons c cs ih => simp [strLtB, ih]

theorem strLtB_trans {a b c : List Char} (h1 : strLtB a b = true)
    (h2 : strLtB b c = true) : strLtB a c = true := by
  induction a generalizing b c with
  | nil =>
    cases b with
    | nil => simp [strLtB] at h1
    | cons y ys =>
      cases c with
      | nil => simp [strLtB] at h2
      | cons z zs => rfl
  | cons x xs ih =>
    cases b with
    | nil => simp [strLtB] at h1
    | cons y ys =>
      cases c with
      | nil => simp [strLtB] at h2
      | cons z zs =>
        rw [strLtB] at h1 h2 ⊢
        by_cases hxy : x.toNat < y.toNat
        · by_cases hyz : y.toNat < z.toNat
          · rw [if_pos (by omega)]
          · by_cases hzy : z.toNat < y.toNat
            · rw [if_neg hyz, if_pos hzy] at h2
              exact absurd h2 (by simp)
            · rw [if_pos (show x.toNat < z.toNat by omega)]
        · by_cases hyx : y.toNat < x.toNat
          · rw [if_neg hxy, if_pos hyx] at h1
            exact absurd h1 (by simp)
          · rw [if_neg hxy, if_neg hyx] at h1
            by_cases hyz : y.toNat < z.toNat
            · rw [if_pos (show x.toNat < z.toNat by omega)]
            · by_cases hzy : z.toNat < y.toNat
              · rw [if_neg hyz, if_pos hzy] at h2
                exact absurd h2 (by simp)
              · rw [if_neg hyz, if_neg hzy] at h2
                rw [if_neg (show ¬ x.toNat < z.toNat by omega),
                  if_neg (show ¬ z.toNat < x.toNat by omega)]
                exact ih h1 h2

theorem strLtB_eq_of_not_lt {a b : List Char} (h1 : strLtB a b = false)
    (h2 : strLtB b a = false) : a = b := by
  induction a generalizing b with
  | nil =>
    cases b with
    | nil => rfl
    | cons y ys => simp [strLtB] at h1
  | cons x xs ih =>
    cases b with
    | nil => simp [strLtB] at h2
    | cons y ys =>
      rw [strLtB] at h1 h2
      by_cases hxy : x.toNat < y.toNat
      · rw [if_pos hxy] at h1
        exact absurd h1 (by simp)
      · by_cases hyx : y.toNat < x.toNat
        · rw [if_pos hyx] at h2
          exact absurd h2 (by simp)
        · rw [if_neg hxy, if_neg hyx] at h1
          rw [if_neg hyx, if_neg hxy] at h2
          rw [char_eq_of_toNat_eq (show x.toNat = y.toNat by omega), ih h1 h2]

theorem strLtB_not_lt_trans {a b c : List Char} (h1 : strLtB b a = false)
    (h2 : strLtB c b = false) : strLtB c a = false := by
  by_contra hc
  rw [Bool.not_eq_false] at hc
  by_cases hab : strLtB a b = true
  · have hcb := strLtB_trans hc hab
    rw [h2] at hcb
    exact absurd hcb (by simp)
  · rw [Bool.not_eq_true] at hab
    have heq : a = b := strLtB_eq_of_not_lt hab h1
    rw [heq] at hc
    rw [hc] at h2
    exact absurd h2 (by simp)

theorem rowLe_total (a b : GradeRecord) : rowLe a b = true ∨ rowLe b a = true := by
  simp only [rowLe]
  by_cases h1 : sort_key_sid a.student_id < sort_key_sid b.student_id
  · left
    rw [if_pos h1]
  · by_cases h2 : sort_key_sid b.student_id < sort_key_sid a.student_id
    · right
      rw [if_pos h2]
    · by_cases h3 : strLtB a.student_id.data b.student_id.data = true
      · left
        rw [if_neg h1, if_neg h2, if_pos h3]
      · by_cases h4 : strLtB b.student_id.data a.student_id.data = true
        · right
          rw [if_neg h2, if_neg h1, if_pos h4]
        · by_cases h5 : strLtB b.name.data a.name.data = true
          · right
            rw [if_neg h2, if_neg h1, if_neg h4, if_neg h3]
            by_cases h6 : strLtB a.name.data b.name.data = true
            · have := strLtB_trans h5 h6
              rw [strLtB_irrefl] at this
              exact absurd this (by simp)
            · simp [h6]
          · left
            rw [if_neg h1, if_neg h2, if_neg h3, if_neg h4]
            simp [h5]

theorem rowLe_trans {a b c : GradeRecord} (h1 : rowLe a b = true)
    (h2 : rowLe b c = true) : rowLe a c = true := by
  simp only [rowLe] at h1 h2 ⊢
  by_cases kab : sort_key_sid a.student_id < sort_key_sid b.student_id
  · by_cases kbc : sort_key_sid b.student_id < sort_key_sid c.student_id
    · rw [if_pos (show sort_key_sid a.student_id < sort_key_sid c.student_id by omega)]
    · by_cases kcb : sort_key_sid c.student_id < sort_key_sid b.student_id
      · rw [if_neg kbc, if_pos kcb] at h2
        exact absurd h2 (by simp)
      · rw [if_pos (show sort_key_sid a.student_id < sort_key_sid c.student_id by omega)]
  · by_cases kba : sort_key_sid b.student_id < sort_key_sid a.student_id
    · rw [if_neg kab, if_pos kba] at h1
      exact absurd h1 (by simp)
    · rw [if_neg kab, if_neg kba] at h1
      by_cases kbc : sort_key_sid b.student_id < sort_key_sid c.student_id
      · rw [if_pos (show sort_key_sid a.student_id < sort_key_sid c.student_id by omega)]
      · by_cases kcb : sort_key_sid c.student_id < sort_key_sid b.student_id
        · rw [if_neg kbc, if_pos kcb] at h2
          exact absurd h2 (by simp)
        · rw [if_neg kbc, if_neg kcb] at h2
          rw [if_neg (show ¬ sort_key_sid a.student_id < sort_key_sid c.student_id by omega),
            if_neg (show ¬ sort_key_sid c.student_id < sort_key_sid a.student_id by omega)]
          by_cases s1 : strLtB a.student_id.data b.student_id.data = true
          · by_cases s2 : strLtB b.student_id.data c.student_id.data = true
            · rw [if_pos (strLtB_trans s1 s2)]
            · by_cases s3 : strLtB c.student_id.data b.student_id.data = true
              · rw [if_neg s2, if_pos s3] at h2
                exact absurd h2 (by simp)
              · rw [Bool.not_eq_true] at s2 s3
                have hbc : b.student_id.data = c.student_id.data := strLtB_eq_of_not_lt s2 s3
                rw [if_pos (hbc ▸ s1)]
          · by_cases s4 : strLtB b.student_id.data a.student_id.data = true
            · rw [if_neg s1, if_pos s4] at h1
              exact absurd h1 (by simp)
            · rw [if_neg s1, if_neg s4] at h1
              rw [Bool.not_eq_true] at s1 s4
              have hab : a.student_id.data = b.student_id.data := strLtB_eq_of_not_lt s1 s4
              by_cases s2 : strLtB b.student_id.data c.student_id.data = true
              · rw [if_pos (hab ▸ s2)]
              · by_cases s3 : strLtB c.student_id.data b.student_id.data = true
                · rw [if_neg s2, if_pos s3] at h2
                  exact absurd h2 (by simp)
                · rw [if_neg s2, if_neg s3] at h2
                  rw [Bool.not_eq_true] at s2 s3
                  have hbc : b.student_id.data = c.student_id.data := strLtB_eq_of_not_lt s2 s3
                  rw [if_neg (show ¬ strLtB a.student_id.data c.student_id.data = true by
                      rw [← hbc, ← hab] at *
                      simp [strLtB_irrefl]),
                    if_neg (show ¬ strLtB c.student_id.data a.student_id.data = true by
                      rw [← hbc, ← hab] at *
                      simp [strLtB_irrefl])]
                  rw [Bool.not_eq_true'] at h1 h2 ⊢
                  exact strLtB_not_lt_trans h1 h2

/-! ### Exporter sorting: stable insertion sort correctness -/

theorem ins_sorted_perm (x : GradeRecord) (l : List GradeRecord) :
    (ins_sorted x l).Perm (x :: l) := by
  induction l with
  | nil => exact List.Perm.refl _
  | cons y ys ih =>
    rw [ins_sorted]
    by_cases h : rowLe y x = true
    · rw [if_pos h]
      exact (ih.cons y).trans (List.Perm.swap x y ys)
    · rw [if_neg h]

theorem ins_sorted_pairwise (x : GradeRecord) (l : List GradeRecord)
    (hl : l.Pairwise (fun a b => rowLe a b = true)) :
    (ins_sorted x l).Pairwise (fun a b => rowLe a b = true) := by
  induction l with
  | nil => simp [ins_sorted]
  | cons y ys ih =>
    rw [List.pairwise_cons] at hl
    obtain ⟨hy, hys⟩ := hl
    rw [ins_sorted]
    by_cases h : rowLe y x = true
    · rw [if_pos h]
      rw [List.pairwise_cons]
      refine ⟨?_, ih hys⟩
      intro z hz
      have hz' := (ins_sorted_perm x ys).mem_iff.mp hz
      rcases List.mem_cons.mp hz' with rfl | hz''
      · exact h
      · exact hy z hz''
    · rw [if_neg h]
      have hxy : rowLe x y = true := (rowLe_total x y).resolve_right h
      rw [List.pairwise_cons]
      refine ⟨?_, List.Pairwise.cons hy hys⟩
      intro z hz
      rcases List.mem_cons.mp hz with rfl | hz'
      · exact hxy
      · exact rowLe_trans hxy (hy z hz')

theorem sortRows_fold_perm (rows acc : List GradeRecord) :
    (List.foldl (fun acc r => ins_sorted r acc) acc rows).Perm (acc ++ rows) := by
  induction rows generalizing acc with
  | nil => simp
  | cons r rs ih =>
    rw [List.foldl_cons]
    refine (ih (ins_sorted r acc)).trans ?_
    refine ((ins_sorted_perm r acc).append_right rs).trans ?_
    exact List.perm_middle.symm

theorem sortRows_fold_pairwise (rows acc : List GradeRecord)
    (hacc : acc.Pairwise (fun a b => rowLe a b = true)) :
    (List.foldl (fun acc r => ins_sorted r acc) acc rows).Pairwise
      (fun a b => rowLe a b = true) := by
  induction rows generalizing acc with
  | nil => exact hacc
  | cons r rs ih =>
    rw [List.foldl_cons]
    exact ih (ins_sorted r acc) (ins_sorted_pairwise r acc hacc)

/-- C3 (amended): each exported sheet's data rows are a permutation of
the section's rows, sorted ascending by the lexicographic key
(integer value of the stripped id when it is a digit string, else the
sentinel 10^18; then the student id string; then the name); a numeric id
whose value is below 10^18 strictly precedes every non-numeric id, but a
numeric id with value at least 10^18 does not, and rows with equal integer
keys are tie-broken by the student id string before the name. -/
theorem export_sheet_rows_sorted (df : List GradeRecord) (ct : String) :
    (sheetRows df ct).Pairwise (fun a b => rowLe a b = true) ∧
    (sheetRows df ct).Perm (sectionRows df ct) ∧
    (∀ a b : GradeRecord, pyIsDigit (pyStrip a.student_id) = true →
      pyDigitsVal (pyStrip a.student_id).data < 10 ^ 18 →
      pyIsDigit (pyStrip b.student_id) = false →
      rowLe a b = true ∧ rowLe b a = false) := by
  refine ⟨sortRows_fold_pairwise _ [] (by simp), ?_, ?_⟩
  · have h := sortRows_fold_perm (sectionRows df ct) []
    simpa using h
  · intro a b ha hav hb
    have hka : sort_key_sid a.student_id = pyDigitsVal (pyStrip a.student_id).data := by
      simp only [sort_key_sid]
      rw [if_pos ha]
    have hkb : sort_key_sid b.student_id = 10 ^ 18 := by
      simp only [sort_key_sid]
      rw [if_neg (by simp [hb])]
    constructor
    · simp only [rowLe]
      rw [if_pos (show sort_key_sid a.student_id < sort_key_sid b.student_id by
        rw [hka, hkb]; omega)]
    · simp only [rowLe]
      rw [if_neg (show ¬ sort_key_sid b.student_id < sort_key_sid a.student_id by
        rw [hka, hkb]; omega),
        if_pos (show sort_key_sid a.student_id < sort_key_sid b.student_id by
        rw [hka, hkb]; omega)]

/-- C3 witness: a row with the 8-digit id 12345678 (value below the
sentinel) strictly precedes a row with the non-numeric id "x". -/
theorem export_sheet_rows_sorted_witness :
    rowLe { class_time := "c", name := "b", student_id := "12345678", q1_score := some 1, q2_score := some 1, total_score := 2, comment := "", file := "f" }
        { class_time := "c", name := "a", student_id := "x", q1_score := some 1, q2_score := some 1, total_score := 2, comment := "", file := "g" } = true ∧
    rowLe { class_time := "c", name := "a", student_id := "x", q1_score := some 1, q2_score := some 1, total_score := 2, comment := "", file := "g" }
        { class_time := "c", name := "b", student_id := "12345678", q1_score := some 1, q2_score := some 1, total_score := 2, comment := "", file := "f" } = false :=
  (export_sheet_rows_sorted [] "c").2.2
    { class_time := "c", name := "b", student_id := "12345678", q1_score := some 1, q2_score := some 1, total_score := 2, comment := "", file := "f" }
    { class_time := "c", name := "a", student_id := "x", q1_score := some 1, q2_score := some 1, total_score := 2, comment := "", file := "g" }
    (by decide) (by decide) (by decide)

/-- C3 counterexample to the claim as stated, at two concrete tables.
First table: the id "9999999999999999999" is purely numeric but its value
exceeds the sentinel 10^18, so the exporter puts the non-numeric id "x"
(key exactly 10^18) before it — numeric ids do not always sort before
non-numeric ones. Second table: the ids "7" and "07" share the integer
key 7, yet the sheet orders the row named "b" (id "07") before the row
named "a" (id "7"): the tie-break is the id string, not the name. -/
theorem export_sort_claim_counterexample :
    sheetRows
        [{ class_time := "c", name := "a", student_id := "9999999999999999999", q1_score := some 1, q2_score := some 1, total_score := 2, comment := "", file := "f" },
         { class_time := "c", name := "b", student_id := "x", q1_score := some 1, q2_score := some 1, total_score := 2, comment := "", file := "g" }] "c" =
      [{ class_time := "c", name := "b", student_id := "x", q1_score := some 1, q2_score := some 1, total_score := 2, comment := "", file := "g" },
       { class_time := "c", name := "a", student_id := "9999999999999999999", q1_score := some 1, q2_score := some 1, total_score := 2, comment := "", file := "f" }] ∧
    pyIsDigit (pyStrip "9999999999999999999") = true ∧
    pyIsDigit (pyStrip "x") = false ∧
    sheetRows
        [{ class_time := "c", name := "a", student_id := "7", q1_score := some 1, q2_score := some 1, total_score := 2, comment := "", file := "f" },
         { class_time := "c", name := "b", student_id := "07", q1_score := some 1, q2_score := some 1, total_score := 2, comment := "", file := "g" }] "c" =
      [{ class_time := "c", name := "b", student_id := "07", q1_score := some 1, q2_score := some 1, total_score := 2, comment := "", file := "g" },
       { class_time := "c", name := "a", student_id := "7", q1_score := some 1, q2_score := some 1, total_score := 2, comment := "", file := "f" }] ∧
    sort_key_sid "07" = sort_key_sid "7" ∧
    strLtB "a".data "b".data = true := by
  refine ⟨by decide, by decide, by decide, by decide, by decide, by decide⟩

/-! ### Exporter highlighting -/

/-- C8: in an exported data row, a blank name or blank student id fills
the whole row with the alert highlight (every cell except a q1/q2 cell
that is itself blank and therefore carries the missing highlight); a blank
q1 cell always carries the missing highlight, and likewise a blank q2
cell — so the alert and missing highlights can co-occur on one row in
different cells. -/
theorem export_highlight_rules (r : GradeRecord) :
    ((strCellEmpty r.name = true ∨ strCellEmpty r.student_id = true) →
      ∀ i : Nat, i < 8 → ¬(i = 3 ∧ qCellEmpty r.q1_score = true) →
        ¬(i = 4 ∧ qCellEmpty r.q2_score = true) →
        (rowFills r).get? i = some Fill.alert) ∧
    (qCellEmpty r.q1_score = true → (rowFills r).get? 3 = some Fill.missing) ∧
    (qCellEmpty r.q2_score = true → (rowFills r).get? 4 = some Fill.missing) ∧
    (rowFills r).length = 8 := by
  refine ⟨?_, ?_, ?_, ?_⟩
  · intro halert i hi h3 h4
    have hb : (strCellEmpty r.name || strCellEmpty r.student_id) = true := by
      rcases halert with h | h <;> simp [h]
    by_cases h1 : qCellEmpty r.q1_score = true <;>
      by_cases h2 : qCellEmpty r.q2_score = true <;>
      simp only [rowFills, hb, if_true, h1, h2, if_false] <;>
      interval_cases i <;> simp_all
  · intro h1
    by_cases h2 : qCellEmpty r.q2_score = true <;>
      by_cases hb : (strCellEmpty r.name || strCellEmpty r.student_id) = true <;>
      simp [rowFills, h1, h2, hb]
  · intro h2
    by_cases h1 : qCellEmpty r.q1_score = true <;>
      by_cases hb : (strCellEmpty r.name || strCellEmpty r.student_id) = true <;>
      simp [rowFills, h1, h2, hb]
  · by_cases h1 : qCellEmpty r.q1_score = true <;>
      by_cases h2 : qCellEmpty r.q2_score = true <;>
      by_cases hb : (strCellEmpty r.name || strCellEmpty r.student_id) = true <;>
      simp [rowFills, h1, h2, hb]

/-- C8 witness: a row with blank student id and blank q1 carries the alert
fill on the name cell and the missing fill on the q1 cell at once. -/
theorem export_highlight_rules_witness :
    (rowFills { class_time := "c", name := "n", student_id := "", q1_score := Option.none, q2_score := some 5, total_score := 5, comment := "", file := "f" }).get? 1 = some Fill.alert ∧
    (rowFills { class_time := "c", name := "n", student_id := "", q1_score := Option.none, q2_score := some 5, total_score := 5, comment := "", file := "f" }).get? 3 = some Fill.missing := by
  constructor
  · exact (export_highlight_rules
      { class_time := "c", name := "n", student_id := "", q1_score := Option.none, q2_score := some 5, total_score := 5, comment := "", file := "f" }).1
      (Or.inr (by decide)) 1 (by decide) (by decide) (by decide)
  · exact (export_highlight_rules
      { class_time := "c", name := "n", student_id := "", q1_score := Option.none, q2_score := some 5, total_score := 5, comment := "", file := "f" }).2.1
      (by decide)

/-! ### Filename parser: the digit-run search -/

theorem firstDigitRunGo_fuel (f1 : Nat) : ∀ (f2 : Nat) (cs : List Char),
    cs.length ≤ f1 → cs.length ≤ f2 → firstDigitRunGo f1 cs = firstDigitRunGo f2 cs := by
  induction f1 with
  | zero =>
    intro f2 cs h1 _
    have : cs = [] := List.length_eq_zero.mp (Nat.le_zero.mp h1)
    subst this
    cases f2 <;> rfl
  | succ f1 ih =>
    intro f2 cs h1 h2
    cases cs with
    | nil => cases f2 <;> rfl
    | cons c rest =>
      cases f2 with
      | zero => simp at h2
      | succ f2 =>
        simp only [firstDigitRunGo]
        by_cases hc : c.isDigit = true
        · rw [if_pos hc, if_pos hc]
          by_cases h8 : 8 ≤ (c :: rest.takeWhile Char.isDigit).length
          · rw [if_pos h8, if_pos h8]
          · rw [if_neg h8, if_neg h8]
            have hd := (List.dropWhile_sublist (l := rest) Char.isDigit).length_le
            simp only [List.length_cons] at h1 h2
            exact ih f2 (rest.dropWhile Char.isDigit) (by omega) (by omega)
        · rw [if_neg hc, if_neg hc]
          simp only [List.length_cons] at h1 h2
          exact ih f2 rest (by omega) (by omega)

theorem firstDigitRun_cons_not_digit {c : Char} {l : List Char}
    (hc : c.isDigit = false) : firstDigitRun (c :: l) = firstDigitRun l := by
  show firstDigitRunGo (l.length + 1) (c :: l) = firstDigitRun l
  simp only [firstDigitRunGo, hc]
  rfl

theorem firstDigitRun_cons_digit {c : Char} {l : List Char}
    (hc : c.isDigit = true) : firstDigitRun (c :: l) =
      if 8 ≤ (c :: l.takeWhile Char.isDigit).length
      then some (c :: l.takeWhile Char.isDigit)
      else firstDigitRun (l.dropWhile Char.isDigit) := by
  show firstDigitRunGo (l.length + 1) (c :: l) = _
  simp only [firstDigitRunGo, hc, if_true]
  by_cases h8 : 8 ≤ (c :: l.takeWhile Char.isDigit).length
  · rw [if_pos h8, if_pos h8]
  · rw [if_neg h8, if_neg h8]
    exact firstDigitRunGo_fuel l.length _ _
      (List.dropWhile_sublist Char.isDigit).length_le (Nat.le_refl _)

theorem prefix_takeWhile {p : α → Bool} : ∀ {b l : List α},
    b <+: l → b.all p = true → b <+: l.takeWhile p := by
  intro b
  induction b with
  | nil => intro l _ _; exact List.nil_prefix
  | cons x b' ih =>
    intro l hb hall
    cases l with
    | nil => exact absurd (List.prefix_nil.mp hb) (by simp)
    | cons y l' =>
      obtain ⟨hx, hb'⟩ := List.cons_prefix_cons.mp hb
      rw [List.all_cons] at hall
      subst hx
      rw [List.takeWhile_cons_of_pos (by exact (Bool.and_eq_true _ _).mp hall |>.1)]
      exact List.cons_prefix_cons.mpr ⟨rfl, ih hb' ((Bool.and_eq_true _ _).mp hall).2⟩

theorem head?_dropWhile_false {p : α → Bool} {l : List α} {d : α}
    (h : (l.dropWhile p).head? = some d) : p d = false := by
  have hh := List.head?_dropWhile_not p l
  rw [h] at hh
  exact hh

theorem firstDigitRun_tail_none {c : Char} {l : List Char}
    (h : firstDigitRun (c :: l) = Option.none) : firstDigitRun l = Option.none := by
  by_cases hc : c.isDigit = true
  · rw [firstDigitRun_cons_digit hc] at h
    by_cases h8 : 8 ≤ (c :: l.takeWhile Char.isDigit).length
    · rw [if_pos h8] at h
      exact absurd h (by simp)
    · rw [if_neg h8] at h
      cases l with
      | nil => rfl
      | cons d l' =>
        by_cases hd : d.isDigit = true
        · rw [firstDigitRun_cons_digit hd]
          rw [if_neg (by
            rw [List.takeWhile_cons_of_pos hd] at h8
            simp only [List.length_cons] at h8 ⊢
            omega)]
          rw [List.dropWhile_cons_of_pos hd] at h
          exact h
        · rw [List.dropWhile_cons_of_neg (by simp [hd])] at h
          exact h
  · rw [firstDigitRun_cons_not_digit (by simpa using hc)] at h
    exact h

theorem firstDigitRun_none_prefix_bound {cs b : List Char}
    (h : firstDigitRun cs = Option.none) (hb : b <+: cs)
    (hd : b.all Char.isDigit = true) : b.length < 8 := by
  cases cs with
  | nil =>
    rw [List.prefix_nil.mp hb]
    simp
  | cons c rest =>
    cases b with
    | nil => simp
    | cons x b' =>
      obtain ⟨hx, hb'⟩ := List.cons_prefix_cons.mp hb
      rw [List.all_cons, Bool.and_eq_true] at hd
      subst hx
      rw [firstDigitRun_cons_digit hd.1] at h
      by_cases h8 : 8 ≤ (x :: rest.takeWhile Char.isDigit).length
      · rw [if_pos h8] at h
        exact absurd h (by simp)
      · rw [if_neg h8] at h
        have hpt : b' <+: rest.takeWhile Char.isDigit := prefix_takeWhile hb' hd.2
        have := hpt.length_le
        simp only [List.length_cons] at h8 ⊢
        omega

theorem firstDigitRun_none_spec : ∀ {cs : List Char},
    firstDigitRun cs = Option.none →
    ∀ b : List Char, b <:+: cs → b.all Char.isDigit = true → b.length < 8 := by
  intro cs
  induction cs with
  | nil =>
    intro _ b hb _
    rw [List.infix_nil.mp hb]
    simp
  | cons c rest ih =>
    intro h b hb hd
    rcases List.infix_cons_iff.mp hb with hbp | hbi
    · exact firstDigitRun_none_prefix_bound h hbp hd
    · exact ih (firstDigitRun_tail_none h) b hbi hd

theorem infix_append_split {b u v : List α} (h : b <:+: u ++ v) :
    b <:+: u ∨ b <:+: v ∨
    ∃ b₁ b₂, b = b₁ ++ b₂ ∧ b₂ ≠ [] ∧ b₁ <:+ u ∧ b₂ <+: v := by
  obtain ⟨s, t, hst⟩ := h
  rw [List.append_assoc] at hst
  rcases List.append_eq_append_iff.mp hst.symm with ⟨w, hw1, hw2⟩ | ⟨w, hw1, hw2⟩
  · right; left
    exact ⟨w, t, by rw [hw2, List.append_assoc]⟩
  · rcases List.append_eq_append_iff.mp hw2 with ⟨x, hx1, hx2⟩ | ⟨x, hx1, hx2⟩
    · left
      exact ⟨s, x, by rw [hw1, hx1, List.append_assoc]⟩
    · by_cases hxe : x = []
      · left
        subst hxe
        rw [List.append_nil] at hx1
        exact ⟨s, [], by rw [hw1, hx1, List.append_nil]⟩
      · right; right
        exact ⟨w, x, hx1, hxe, ⟨s, hw1.symm⟩, ⟨t, hx2.symm⟩⟩

theorem firstDigitRun_some_spec_aux : ∀ (n : Nat) {cs run : List Char},
    cs.length ≤ n → firstDigitRun cs = some run →
    ∃ pre post, cs = pre ++ run ++ post ∧ run.all Char.isDigit = true ∧
      8 ≤ run.length ∧
      (∀ b : List Char, b <:+: pre → b.all Char.isDigit = true → b.length < 8) ∧
      (∀ c, pre.getLast? = some c → c.isDigit = false) ∧
      (∀ c, post.head? = some c → c.isDigit = false) := by
  intro n
  induction n with
  | zero =>
    intro cs run hlen h
    rw [List.length_eq_zero.mp (Nat.le_zero.mp hlen)] at h
    exact absurd h (by simp [firstDigitRun, firstDigitRunGo])
  | succ n ih =>
    intro cs run hlen h
    cases cs with
    | nil => exact absurd h (by simp [firstDigitRun, firstDigitRunGo])
    | cons c rest =>
      simp only [List.length_cons] at hlen
      by_cases hc : c.isDigit = true
      · rw [firstDigitRun_cons_digit hc] at h
        by_cases h8 : 8 ≤ (c :: rest.takeWhile Char.isDigit).length
        · rw [if_pos h8] at h
          have hrun : run = c :: rest.takeWhile Char.isDigit := by
            have := h
            simp only [Option.some.injEq] at this
            exact this.symm
          subst hrun
          refine ⟨[], rest.dropWhile Char.isDigit, ?_, ?_, h8, ?_, ?_, ?_⟩
          · simp [List.takeWhile_append_dropWhile]
          · rw [List.all_cons, Bool.and_eq_true]
            exact ⟨hc, List.all_takeWhile⟩
          · intro b hb _
            rw [List.infix_nil.mp hb]
            simp
          · intro d hd
            simp at hd
          · intro d hd
            exact head?_dropWhile_false hd
        · rw [if_neg h8] at h
          have hlen' : (rest.dropWhile Char.isDigit).length ≤ n := by
            have := (List.dropWhile_sublist (l := rest) Char.isDigit).length_le
            omega
          obtain ⟨pre, post, hsplit, hall, hlen8, hpre, hlast, hhead⟩ := ih hlen' h
          have hpre_ne : pre ≠ [] := by
            intro he
            subst he
            rw [List.nil_append] at hsplit
            cases run with
            | nil => simp at hlen8
            | cons r0 rs =>
              have hr0 : (rest.dropWhile Char.isDigit).head? = some r0 := by
                rw [hsplit]
                rfl
              have := head?_dropWhile_false hr0
              rw [List.all_cons, Bool.and_eq_true] at hall
              rw [hall.1] at this
              exact absurd this (by simp)
          have hpre_head : ∀ d, pre.head? = some d → d.isDigit = false := by
            intro d hd
            apply head?_dropWhile_false (l := rest)
            rw [hsplit]
            cases pre with
            | nil => exact absurd rfl hpre_ne
            | cons p ps =>
              simp only [List.head?_cons, Option.some.injEq] at hd
              rw [← hd]
              rfl
          refine ⟨(c :: rest.takeWhile Char.isDigit) ++ pre, post, ?_, hall, hlen8, ?_, ?_, hhead⟩
          · simp only [List.append_assoc]
            rw [← List.append_assoc pre run post, ← hsplit, List.cons_append,
              List.takeWhile_append_dropWhile]
          · intro b hb hbd
            rcases infix_append_split hb with hbu | hbv | ⟨b₁, b₂, hb12, hb2ne, _, hb2p⟩
            · have := hbu.sublist.length_le
              simp only [List.length_cons] at h8 this ⊢
              omega
            · exact hpre b hbv hbd
            · cases b₂ with
              | nil => exact absurd rfl hb2ne
              | cons x b₂' =>
                have hx : pre.head? = some x := by
                  obtain ⟨t, ht⟩ := hb2p
                  rw [← ht]
                  rfl
                have hxd : x.isDigit = false := hpre_head x hx
                rw [hb12, List.all_append, Bool.and_eq_true] at hbd
                rw [List.all_cons, Bool.and_eq_true] at hbd
                rw [hxd] at hbd
                exact absurd hbd.2.1 (by simp)
          · intro d hd
            rw [List.getLast?_append_of_ne_nil _ hpre_ne] at hd
            exact hlast d hd
      · rw [firstDigitRun_cons_not_digit (by simpa using hc)] at h
        obtain ⟨pre, post, hsplit, hall, hlen8, hpre, hlast, hhead⟩ :=
          ih (by omega) h
        refine ⟨c :: pre, post, by simp [hsplit], hall, hlen8, ?_, ?_, hhead⟩
        · intro b hb hbd
          rcases List.infix_cons_iff.mp hb with hbp | hbi
          · cases b with
            | nil => simp
            | cons x b' =>
              obtain ⟨hx, _⟩ := List.cons_prefix_cons.mp hbp
              rw [List.all_cons, Bool.and_eq_true] at hbd
              subst hx
              rw [hbd.1] at hc
              exact absurd rfl hc
          · exact hpre b hbi hbd
        · intro d hd
          cases pre with
          | nil =>
            simp only [List.getLast?_singleton, Option.some.injEq] at hd
            rw [← hd]
            simpa using hc
          | cons p ps =>
            rw [List.getLast?_cons_cons] at hd
            exact hlast d hd

theorem firstDigitRun_some_spec {cs run : List Char} (h : firstDigitRun cs = some run) :
    ∃ pre post, cs = pre ++ run ++ post ∧ run.all Char.isDigit = true ∧
      8 ≤ run.length ∧
      (∀ b : List Char, b <:+: pre → b.all Char.isDigit = true → b.length < 8) ∧
      (∀ c, pre.getLast? = some c → c.isDigit = false) ∧
      (∀ c, post.head? = some c → c.isDigit = false) :=
  firstDigitRun_some_spec_aux cs.length (Nat.le_refl _) h

/-- C6: on a stem splitting into at least 3 hyphen-separated segments,
`parse_filename_meta` returns the stripped last segment as the student id,
the stripped second-to-last segment as the name, and the earlier segments
rejoined with `-` (stripped) as the class time; on fewer segments it
returns the stripped full stem as class time, an empty name, and as
student id the first maximal run of 8 or more consecutive digits of the
stem if one exists (taken verbatim), else the empty string. -/
theorem parse_filename_meta_spec (base : String) :
    (3 ≤ (splitOnChar '-' base.data).length →
      (∀ lastSeg : List Char, (splitOnChar '-' base.data).getLast? = some lastSeg →
        (parse_filename_meta base).student_id = pyStrip ⟨lastSeg⟩) ∧
      (∀ nm : List Char,
        (splitOnChar '-' base.data).get? ((splitOnChar '-' base.data).length - 2) = some nm →
        (parse_filename_meta base).name = pyStrip ⟨nm⟩) ∧
      (parse_filename_meta base).class_time =
        pyStrip ⟨joinSep '-' ((splitOnChar '-' base.data).take
          ((splitOnChar '-' base.data).length - 2))⟩) ∧
    ((splitOnChar '-' base.data).length < 3 →
      (parse_filename_meta base).class_time = pyStrip base ∧
      (parse_filename_meta base).name = "" ∧
      ((∃ pre run post : List Char, base.data = pre ++ run ++ post ∧
          run.all Char.isDigit = true ∧ 8 ≤ run.length ∧
          (∀ b : List Char, b <:+: pre → b.all Char.isDigit = true → b.length < 8) ∧
          (∀ c, pre.getLast? = some c → c.isDigit = false) ∧
          (∀ c, post.head? = some c → c.isDigit = false) ∧
          (parse_filename_meta base).student_id = ⟨run⟩) ∨
        ((∀ b : List Char, b <:+: base.data → b.all Char.isDigit = true → b.length < 8) ∧
          (parse_filename_meta base).student_id = ""))) := by
  constructor
  · intro h3
    simp only [parse_filename_meta, if_pos h3]
    refine ⟨?_, ?_, trivial⟩
    · intro lastSeg hlast
      simp [hlast]
    · intro nm hnm
      rw [List.get?_eq_getElem?] at hnm
      simp [hnm]
  · intro hlt
    have hn3 : ¬ 3 ≤ (splitOnChar '-' base.data).length := by omega
    simp only [parse_filename_meta, if_neg hn3]
    refine ⟨trivial, trivial, ?_⟩
    cases hrun : firstDigitRun base.data with
    | none =>
      right
      exact ⟨firstDigitRun_none_spec hrun, by simp [hrun]⟩
    | some run =>
      left
      obtain ⟨pre, post, hsplit, hall, hlen8, hpre, hlast, hhead⟩ :=
        firstDigitRun_some_spec hrun
      exact ⟨pre, run, post, hsplit, hall, hlen8, hpre, hlast, hhead, by simp [hrun]⟩

/-- C6 witness: the spec's two examples — a conforming three-segment
filename yields the last segment as id, and a short stem with an 8+ digit
run keeps the whole stem as class time. -/
theorem parse_filename_meta_spec_witness :
    (parse_filename_meta "上午1-2节（830-1000）-蔡俊灏-2023151554").student_id = "2023151554" ∧
    (parse_filename_meta "hw_20231554").class_time = "hw_20231554" := by
  constructor
  · have h := ((parse_filename_meta_spec "上午1-2节（830-1000）-蔡俊灏-2023151554").1
      (by decide)).1 ("2023151554".data) (by decide)
    rw [h]
    decide
  · have h := ((parse_filename_meta_spec "hw_20231554").2 (by decide)).1
    rw [h]
    decide
